import Mathlib

/-!
Verification of the micro-bench library (`microbench.h`).

This file gives a shallow embedding of the core of the library:

* `Bench_Stats`, `gather_bench_stats` — the adaptive sampling loop
  (`benchmark_internal::gather_bench_stats`).  The wall clock is modelled as a
  sequence `clock : Nat → Int` of successive clock reads (`clock 0` is the
  `start` read, `clock (i+1)` the read ending loop iteration `i`), and the
  measured function as `fn : Nat → Bool` giving the keep/reject answer of its
  k-th invocation.  The C++ `while(true)` loop is embedded with explicit fuel;
  `none` means the fuel ran out.  Alongside the returned `Bench_Stats` we also
  return the total number of invocations of the measured function, which is an
  observable of the loop's trace.
* `process_stats` — the statistical reducer (`benchmark_internal::process_stats`).
  C++ `double` arithmetic is idealised as real arithmetic; `sqrt` is
  `Real.sqrt` and `abs` the real absolute value.
* `calculate_clock_stats` — the clock calibrator
  (`benchmark_internal::calculate_clock_stats`), the back-to-back clock deltas
  being modelled as a sequence `diff : Nat → Int`.

`int64_t` is modelled as `Int` (the repository's own comment notes overflow
"didnt ever happen anyways"; none of the verified claims concerns overflow).
C++ signed integer division truncates towards zero, hence `Int.tdiv`
throughout.
-/

namespace Microbench

/-- `time_consts::SECOND_MILISECONDS`. -/
def SECOND_MILISECONDS : Int := 1000

/-- `time_consts::SECOND_NANOSECONDS`. -/
def SECOND_NANOSECONDS : Int := 1000000000

/-- `time_consts::MILISECOND_NANOSECONDS = SECOND_NANOSECONDS / SECOND_MILISECONDS`. -/
def MILISECOND_NANOSECONDS : Int := Int.tdiv SECOND_NANOSECONDS SECOND_MILISECONDS

/-- `(int64_t) 1 << 62`, the sentinel used to initialise `min_batch_time`
(and, negated, `Clock_Stats.max`). -/
def sentinel : Int := 2 ^ 62

/-- `benchmark_internal::Bench_Stats`. -/
structure Bench_Stats where
  batch_count : Int
  batch_size : Int
  time_sum : Int
  squared_time_sum : Int
  min_batch_time : Int
  max_batch_time : Int
  mean_time_estimate : Int
deriving DecidableEq

/-- The initial `Bench_Stats` set up at the top of `gather_bench_stats`
(lines 117–125 of `microbench.h`). -/
def init_stats (min_batch_size : Int) : Bench_Stats :=
  { batch_count := 0
    batch_size := min_batch_size
    time_sum := 0
    squared_time_sum := 0
    min_batch_time := sentinel
    max_batch_time := 0
    mean_time_estimate := 0 }

/-- The reject flag of one batch: `reject |= (int64_t)!measured_fn();` folded
over the `batch_size` calls of the batch (lines 131–133).  `callIdx` is the
number of invocations of the measured function made before this batch. -/
def batch_reject (fn : Nat → Bool) (callIdx : Nat) (b : Nat) : Nat :=
  (List.range b).foldl (fun r i => r ||| (if fn (callIdx + i) then 0 else 1)) 0

/-- The statistics update applied to a non-rejected batch
(lines 140–159 of `microbench.h`). -/
def accumulate (stats : Bench_Stats) (batch_time : Int) : Bench_Stats :=
  let delta := batch_time - stats.mean_time_estimate
  { stats with
    time_sum := stats.time_sum + delta
    squared_time_sum := stats.squared_time_sum + delta * delta
    batch_count := stats.batch_count + 1
    min_batch_time := if stats.min_batch_time > delta then delta else stats.min_batch_time
    max_batch_time := if stats.max_batch_time < delta then delta else stats.max_batch_time }

/-- The resize step of the sampling loop (lines 167–197 of `microbench.h`):
re-estimate the mean, re-derive the batch size, discard the statistics. -/
def resize (stats : Bench_Stats) (total_time max_time_ns batch_time_ns
    min_batch_size min_end_checks : Int) : Bench_Stats :=
  let iters0 := stats.batch_count * stats.batch_size
  let iters := if iters0 ≤ 0 then 1 else iters0
  let est := Int.tdiv stats.time_sum iters
  let remaining := max_time_ns - total_time
  let nc0 := Int.tdiv remaining batch_time_ns
  let num_checks := if nc0 < min_end_checks then min_end_checks else nc0
  let den0 := total_time * num_checks
  let den := if den0 ≤ 0 then 1 else den0
  let bs0 := Int.tdiv (iters * remaining) den
  let bs := if bs0 < min_batch_size then min_batch_size else bs0
  { batch_count := 0
    batch_size := bs
    time_sum := 0
    squared_time_sum := 0
    min_batch_time := sentinel
    max_batch_time := 0
    mean_time_estimate := est }

/-- The mutable state of the sampling loop between iterations: the statistics,
the current phase deadline `to_time`, the timestamp `fromT` of the last batch
boundary (`from` in the C++), the number of measured-function invocations so
far, and the number of loop iterations done so far (which indexes clock reads:
the next read is `clock (iter + 1)`). -/
structure GatherState where
  stats : Bench_Stats
  to_time : Int
  fromT : Int
  calls : Nat
  iter : Nat
deriving DecidableEq

/-- The deadline logic at the end of a loop iteration (lines 161–199):
given the statistics `stats1` after the accumulate decision, either break out
of the loop (`Sum.inl`, returning the statistics and the call count), resize
and continue, or just continue. -/
def deadline_phase (max_time_ns batch_time_ns min_batch_size min_end_checks
    start : Int) (stats1 : Bench_Stats) (s : GatherState) (now : Int)
    (calls' : Nat) : (Bench_Stats × Nat) ⊕ GatherState :=
  let total_time := now - start
  if total_time > s.to_time then
    if total_time > max_time_ns then
      Sum.inl (stats1, calls')
    else
      Sum.inr { stats := resize stats1 total_time max_time_ns batch_time_ns
                  min_batch_size min_end_checks
                to_time := max_time_ns
                fromT := now
                calls := calls'
                iter := s.iter + 1 }
  else
    Sum.inr { stats := stats1
              to_time := s.to_time
              fromT := now
              calls := calls'
              iter := s.iter + 1 }

/-- One iteration of the `while(true)` loop of `gather_bench_stats`
(lines 129–200): run one batch, read the clock, accumulate unless rejected,
then apply the deadline logic. -/
def gatherStep (fn : Nat → Bool) (clock : Nat → Int)
    (max_time_ns batch_time_ns min_batch_size min_end_checks start : Int)
    (s : GatherState) : (Bench_Stats × Nat) ⊕ GatherState :=
  let b := s.stats.batch_size.toNat
  let reject := batch_reject fn s.calls b
  let now := clock (s.iter + 1)
  let batch_time := now - s.fromT
  let stats1 := if reject = 0 then accumulate s.stats batch_time else s.stats
  deadline_phase max_time_ns batch_time_ns min_batch_size min_end_checks start
    stats1 s now (s.calls + b)

/-- The fuelled sampling loop; `none` means the fuel ran out before the loop
terminated. -/
def gatherLoop (fn : Nat → Bool) (clock : Nat → Int)
    (max_time_ns batch_time_ns min_batch_size min_end_checks start : Int) :
    Nat → GatherState → Option (Bench_Stats × Nat)
  | 0, _ => none
  | fuel + 1, s =>
    match gatherStep fn clock max_time_ns batch_time_ns min_batch_size
        min_end_checks start s with
    | Sum.inl r => some r
    | Sum.inr s' => gatherLoop fn clock max_time_ns batch_time_ns
        min_batch_size min_end_checks start fuel s'

/-- `benchmark_internal::gather_bench_stats` (lines 97–203): clamp the noise
floor, derive the warm-up deadline, initialise the statistics and run the
loop.  Returns the final `Bench_Stats` together with the total number of
invocations of the measured function. -/
def gather_bench_stats (fn : Nat → Bool) (clock : Nat → Int)
    (max_time_ns warm_up_ns batch_time_ns min_batch_size min_end_checks : Int)
    (fuel : Nat) : Option (Bench_Stats × Nat) :=
  let batch_time := if batch_time_ns ≤ 0 then 1 else batch_time_ns
  let to_time0 := if warm_up_ns > max_time_ns ∨ warm_up_ns ≤ 0 then max_time_ns
    else warm_up_ns
  let start := clock 0
  gatherLoop fn clock max_time_ns batch_time min_batch_size min_end_checks
    start fuel
    { stats := init_stats min_batch_size
      to_time := to_time0
      fromT := start
      calls := 0
      iter := 0 }

/-- `microbench::Bench_Result`, with the `double` fields idealised as reals. -/
structure Bench_Result where
  mean_ms : ℝ
  deviation_ms : ℝ
  max_ms : ℝ
  min_ms : ℝ
  batch_size : Int
  iters : Int

/-- `benchmark_internal::process_stats` (lines 206–299). -/
noncomputable def process_stats (stats : Bench_Stats) (runs_mult : Int) :
    Bench_Result :=
  let batch_size := stats.batch_size * runs_mult
  let iters := batch_size * stats.batch_count
  let batch_deviation_ms : ℝ :=
    if stats.batch_count > 1 then
      let n : ℝ := (stats.batch_count : ℝ)
      let sum : ℝ := (stats.time_sum : ℝ)
      let sum2 : ℝ := (stats.squared_time_sum : ℝ)
      let varience_ns := (sum2 - (sum * sum) / n) / (n - 1)
      Real.sqrt |varience_ns| / (MILISECOND_NANOSECONDS : ℝ)
    else 0
  let adjusted_time_sum := stats.time_sum + stats.mean_time_estimate * stats.batch_count
  let adjutsted_min := stats.min_batch_time + stats.mean_time_estimate
  let adjutsted_max := stats.max_batch_time + stats.mean_time_estimate
  let mean_ms : ℝ := if iters ≠ 0 then
    (adjusted_time_sum : ℝ) / ((iters * MILISECOND_NANOSECONDS : Int) : ℝ) else 0
  let min_ms : ℝ := if iters ≠ 0 then
    (adjutsted_min : ℝ) / ((batch_size * MILISECOND_NANOSECONDS : Int) : ℝ) else 0
  let max_ms : ℝ := if iters ≠ 0 then
    (adjutsted_max : ℝ) / ((batch_size * MILISECOND_NANOSECONDS : Int) : ℝ) else 0
  let sqrt_batch_size : ℝ :=
    if batch_size = 0 then 1 else Real.sqrt (batch_size : ℝ)
  let min0 := mean_ms + (min_ms - mean_ms) * sqrt_batch_size
  { mean_ms := mean_ms
    deviation_ms := batch_deviation_ms / sqrt_batch_size
    max_ms := mean_ms + (max_ms - mean_ms) * sqrt_batch_size
    min_ms := if min0 < 0 then 0 else min0
    batch_size := batch_size
    iters := iters }

/-- The two assertions at the top of `process_stats`
(lines 210–211 of `microbench.h`). -/
def process_stats_asserts (stats : Bench_Stats) : Prop :=
  stats.min_batch_time * stats.batch_count ≤ stats.time_sum ∧
  stats.max_batch_time * stats.batch_count ≥ stats.time_sum

/-- The state invariant of the sampling loop claimed by the spec's data model:
`min_delta * batch_count ≤ time_sum ≤ max_delta * batch_count`,
`batch_size ≥ 1` and `batch_count ≥ 0`. -/
def StatsInv (stats : Bench_Stats) : Prop :=
  stats.min_batch_time * stats.batch_count ≤ stats.time_sum ∧
  stats.time_sum ≤ stats.max_batch_time * stats.batch_count ∧
  1 ≤ stats.batch_size ∧
  0 ≤ stats.batch_count

/-- The loop-state invariant that makes "noise floor 0 disables coalescing"
true: the batch size is pinned at 1 (= `min_batch_size`), the retained batch
count never exceeds the nanoseconds elapsed up to the last batch boundary, and
the phase deadline lies between 0 and `max_time_ns`. -/
def NoCoalesceInv (clock : Nat → Int) (start mx : Int) (s : GatherState) :
    Prop :=
  s.stats.batch_size = 1 ∧ 0 ≤ s.stats.batch_count ∧
  s.stats.batch_count ≤ s.fromT - start ∧ s.fromT = clock s.iter ∧
  0 ≤ s.to_time ∧ s.to_time ≤ mx

/-- `benchmark_internal::Clock_Stats`. -/
structure Clock_Stats where
  average : Int
  min : Int
  max : Int
deriving DecidableEq

/-- `benchmark_internal::calculate_clock_stats` (lines 310–336): the i-th
back-to-back clock-read delta is modelled as `diff i`. -/
def calculate_clock_stats (diff : Nat → Int) (runs : Int) : Clock_Stats :=
  let r := (List.range runs.toNat).foldl
    (fun (acc : Int × Int × Int) i =>
      (acc.1 + diff i,
       if diff i < acc.2.1 then diff i else acc.2.1,
       if diff i > acc.2.2 then diff i else acc.2.2))
    (0, sentinel, -sentinel)
  let avg0 := Int.tdiv r.1 runs
  let avg := if avg0 = 0 then avg0 + 1 else avg0
  { average := avg, min := r.2.1, max := r.2.2 }

/-! ### Helper lemmas -/

theorem or_one_ne_zero (a : Nat) : a ||| 1 ≠ 0 := by
  intro h
  have ht := Nat.testBit_or a 1 0
  rw [h] at ht
  simp at ht

theorem reject_foldl_eq_zero (fn : Nat → Bool) (c : Nat) :
    ∀ (l : List Nat) (r : Nat),
      (l.foldl (fun r i => r ||| (if fn (c + i) then 0 else 1)) r = 0 ↔
        r = 0 ∧ ∀ i ∈ l, fn (c + i) = true) := by
  intro l
  induction l with
  | nil => intro r; simp
  | cons a l ih =>
    intro r
    simp only [List.foldl_cons, List.mem_cons]
    rw [ih]
    by_cases hfa : fn (c + a)
    · simp [hfa]
    · simp only [hfa, if_false]
      constructor
      · rintro ⟨h0, -⟩
        exact absurd h0 (or_one_ne_zero r)
      · rintro ⟨-, h⟩
        exact absurd (h a (Or.inl rfl)) hfa

theorem batch_reject_eq_zero_iff (fn : Nat → Bool) (c b : Nat) :
    batch_reject fn c b = 0 ↔ ∀ i < b, fn (c + i) = true := by
  unfold batch_reject
  rw [reject_foldl_eq_zero]
  simp [List.mem_range]

theorem batch_reject_false (fn : Nat → Bool) (c b : Nat) (hb : 1 ≤ b)
    (hfn : ∀ k, fn k = false) : batch_reject fn c b ≠ 0 := by
  rw [Ne, batch_reject_eq_zero_iff]
  intro h
  have := h 0 hb
  rw [hfn] at this
  exact Bool.false_ne_true this

/-- A generic invariant-propagation principle for the fuelled sampling loop:
if every step preserves `P` on continuations and establishes `Q` on exits,
then every terminating run from a `P` state exits with `Q`. -/
theorem gatherLoop_inv (fn : Nat → Bool) (clock : Nat → Int)
    (mx bt mbs mec start : Int) {P : GatherState → Prop}
    {Q : Bench_Stats × Nat → Prop}
    (hstep : ∀ s, P s →
      Sum.elim Q P (gatherStep fn clock mx bt mbs mec start s)) :
    ∀ (fuel : Nat) (s : GatherState), P s →
      ∀ r, gatherLoop fn clock mx bt mbs mec start fuel s = some r → Q r := by
  intro fuel
  induction fuel with
  | zero => intro s _ r h; simp [gatherLoop] at h
  | succ n ih =>
    intro s hP r h
    have hs := hstep s hP
    unfold gatherLoop at h
    cases hg : gatherStep fn clock mx bt mbs mec start s with
    | inl r' =>
      rw [hg] at h hs
      simp only [Option.some.injEq] at h
      subst h
      exact hs
    | inr s' =>
      rw [hg] at h hs
      exact ih s' hs r h

/-- Unfolding the loop iteration into its two phases. -/
theorem gatherStep_eq (fn : Nat → Bool) (clock : Nat → Int)
    (mx bt mbs mec start : Int) (s : GatherState) :
    gatherStep fn clock mx bt mbs mec start s =
      deadline_phase mx bt mbs mec start
        (if batch_reject fn s.calls s.stats.batch_size.toNat = 0 then
           accumulate s.stats (clock (s.iter + 1) - s.fromT)
         else s.stats)
        s (clock (s.iter + 1)) (s.calls + s.stats.batch_size.toNat) := rfl

/-- Structure of a continuing deadline phase: the iteration count advances by
one, the phase deadline either stays or becomes `max_time_ns`, and the clock
read that ended the iteration did not put the total past both deadlines. -/
theorem deadline_phase_inr (mx bt mbs mec start : Int) (stats1 : Bench_Stats)
    (s : GatherState) (now : Int) (calls' : Nat) (s' : GatherState)
    (h : deadline_phase mx bt mbs mec start stats1 s now calls' = Sum.inr s') :
    s'.iter = s.iter + 1 ∧ (s'.to_time = mx ∨ s'.to_time = s.to_time) ∧
    ¬(now - start > s.to_time ∧ now - start > mx) := by
  unfold deadline_phase at h
  dsimp only at h
  split_ifs at h with h1 h2
  · cases h
    exact ⟨rfl, Or.inl rfl, fun hc => h2 hc.2⟩
  · cases h
    exact ⟨rfl, Or.inr rfl, fun hc => h1 hc.1⟩

/-- Structure of a continuing step, in terms of the clock reads. -/
theorem gatherStep_inr (fn : Nat → Bool) (clock : Nat → Int)
    (mx bt mbs mec start : Int) (s s' : GatherState)
    (h : gatherStep fn clock mx bt mbs mec start s = Sum.inr s') :
    s'.iter = s.iter + 1 ∧ (s'.to_time = mx ∨ s'.to_time = s.to_time) ∧
    ¬(clock (s.iter + 1) - start > s.to_time ∧
      clock (s.iter + 1) - start > mx) := by
  rw [gatherStep_eq] at h
  exact deadline_phase_inr _ _ _ _ _ _ _ _ _ _ h

/-- Termination of the sampling loop under a clock that advances by at least
one nanosecond per loop iteration. -/
theorem gatherLoop_some (fn : Nat → Bool) (clock : Nat → Int)
    (mx bt mbs mec start : Int)
    (hclock : ∀ i, clock i + 1 ≤ clock (i + 1)) :
    ∀ (fuel : Nat) (s : GatherState), s.to_time ≤ mx →
      (mx + start - clock s.iter).toNat < fuel →
      (gatherLoop fn clock mx bt mbs mec start fuel s).isSome := by
  intro fuel
  induction fuel with
  | zero => intro s _ h; omega
  | succ n ih =>
    intro s hto hm
    unfold gatherLoop
    cases hg : gatherStep fn clock mx bt mbs mec start s with
    | inl r => simp
    | inr s' =>
      simp only
      obtain ⟨hiter, hto', hnb⟩ := gatherStep_inr fn clock mx bt mbs mec start
        s s' hg
      have hc := hclock s.iter
      have hle : clock (s.iter + 1) - start ≤ mx := by
        rcases not_and_or.mp hnb with h | h
        · have : clock (s.iter + 1) - start ≤ s.to_time := by omega
          omega
        · omega
      apply ih s'
      · rcases hto' with h | h <;> omega
      · rw [hiter]
        omega

theorem statsInv_accumulate (st : Bench_Stats) (bt : Int) (h : StatsInv st) :
    StatsInv (accumulate st bt) := by
  obtain ⟨h1, h2, h3, h4⟩ := h
  unfold accumulate StatsInv
  dsimp only
  set d := bt - st.mean_time_estimate with hd
  refine ⟨?_, ?_, h3, by omega⟩
  · split_ifs with hm
    · have : d * st.batch_count ≤ st.min_batch_time * st.batch_count :=
        mul_le_mul_of_nonneg_right (le_of_lt hm) h4
      nlinarith
    · nlinarith
  · split_ifs with hm
    · have : st.max_batch_time * st.batch_count ≤ d * st.batch_count :=
        mul_le_mul_of_nonneg_right (le_of_lt hm) h4
      nlinarith
    · nlinarith

theorem statsInv_resize (st : Bench_Stats) (total mx bt mbs mec : Int)
    (hmbs : 1 ≤ mbs) : StatsInv (resize st total mx bt mbs mec) := by
  unfold resize StatsInv
  dsimp only
  refine ⟨by simp, by simp, ?_, le_refl 0⟩
  split_ifs <;> linarith

theorem statsInv_init (mbs : Int) (hmbs : 1 ≤ mbs) :
    StatsInv (init_stats mbs) := by
  unfold init_stats StatsInv
  exact ⟨by simp, by simp, hmbs, le_refl 0⟩

theorem deadline_phase_statsInv (mx bt mbs mec start : Int)
    (stats1 : Bench_Stats) (s : GatherState) (now : Int) (calls' : Nat)
    (hmbs : 1 ≤ mbs) (h1 : StatsInv stats1) :
    Sum.elim (fun r => StatsInv r.1) (fun s' => StatsInv s'.stats)
      (deadline_phase mx bt mbs mec start stats1 s now calls') := by
  unfold deadline_phase
  dsimp only
  split_ifs
  · exact h1
  · exact statsInv_resize _ _ _ _ _ _ hmbs
  · exact h1

/-- A step from a state whose statistics satisfy `StatsInv` exits or continues
with statistics satisfying `StatsInv`. -/
theorem gatherStep_statsInv (fn : Nat → Bool) (clock : Nat → Int)
    (mx bt mbs mec start : Int) (hmbs : 1 ≤ mbs) (s : GatherState)
    (h : StatsInv s.stats) :
    Sum.elim (fun r => StatsInv r.1) (fun s' => StatsInv s'.stats)
      (gatherStep fn clock mx bt mbs mec start s) := by
  rw [gatherStep_eq]
  apply deadline_phase_statsInv _ _ _ _ _ _ _ _ _ hmbs
  split_ifs
  · exact statsInv_accumulate _ _ h
  · exact h

/-- The returned statistics of any terminating run satisfy `StatsInv`. -/
theorem gather_statsInv (fn : Nat → Bool) (clock : Nat → Int)
    (mx wu bt mbs mec : Int) (hmbs : 1 ≤ mbs) (fuel : Nat)
    (st : Bench_Stats) (nc : Nat)
    (h : gather_bench_stats fn clock mx wu bt mbs mec fuel = some (st, nc)) :
    StatsInv st := by
  unfold gather_bench_stats at h
  exact gatherLoop_inv fn clock mx _ mbs mec (clock 0)
    (fun s hs => gatherStep_statsInv fn clock mx _ mbs mec (clock 0) hmbs s hs)
    fuel _ (statsInv_init mbs hmbs) (st, nc) h

theorem accumulate_batch_size (st : Bench_Stats) (bt : Int) :
    (accumulate st bt).batch_size = st.batch_size := rfl

theorem stats1_batch_size (c : Prop) [Decidable c] (st : Bench_Stats)
    (bt : Int) : (if c then accumulate st bt else st).batch_size =
      st.batch_size := by
  split_ifs <;> rfl

theorem resize_batch_size_ge (st : Bench_Stats) (total mx bt mbs mec : Int) :
    mbs ≤ (resize st total mx bt mbs mec).batch_size := by
  unfold resize
  dsimp only
  split_ifs <;> linarith

/-- Termination of `gather_bench_stats` with fuel `max_time_ns + 1`, under a
clock that advances by at least one nanosecond per read. -/
theorem gather_terminates (fn : Nat → Bool) (clock : Nat → Int)
    (mx wu bt mbs mec : Int) (hmx : 0 ≤ mx)
    (hclock : ∀ i, clock i + 1 ≤ clock (i + 1)) :
    (gather_bench_stats fn clock mx wu bt mbs mec (mx.toNat + 1)).isSome := by
  unfold gather_bench_stats
  dsimp only
  apply gatherLoop_some _ _ _ _ _ _ _ hclock
  · dsimp only
    split_ifs with h
    · exact le_refl mx
    · push_neg at h
      exact h.1
  · dsimp only
    omega

/-- Any terminating run makes at least `min_batch_size` calls of the measured
function: the loop always completes its first batch before checking time. -/
theorem gather_calls (fn : Nat → Bool) (clock : Nat → Int)
    (mx wu bt mbs mec : Int) (hmbs : 1 ≤ mbs) (fuel : Nat)
    (st : Bench_Stats) (nc : Nat)
    (h : gather_bench_stats fn clock mx wu bt mbs mec fuel = some (st, nc)) :
    mbs.toNat ≤ nc := by
  unfold gather_bench_stats at h
  refine gatherLoop_inv fn clock mx _ mbs mec (clock 0)
    (P := fun s => mbs ≤ s.stats.batch_size)
    (Q := fun r => mbs.toNat ≤ r.2) ?_ fuel _ (le_refl mbs) (st, nc) h
  intro s hP
  rw [gatherStep_eq]
  unfold deadline_phase
  dsimp only
  have hb : mbs.toNat ≤ s.calls + s.stats.batch_size.toNat := by omega
  split_ifs <;> simp only [Sum.elim_inl, Sum.elim_inr] <;>
    first
      | exact hb
      | exact resize_batch_size_ge _ _ _ _ _ _
      | (rw [accumulate_batch_size]; exact hP)
      | exact hP

/-- With an always-rejecting measured function no batch is ever retained:
`batch_count` stays 0 at every point of the loop. -/
theorem gather_always_reject (fn : Nat → Bool) (clock : Nat → Int)
    (mx wu bt mbs mec : Int) (hfn : ∀ k, fn k = false) (hmbs : 1 ≤ mbs)
    (fuel : Nat) (st : Bench_Stats) (nc : Nat)
    (h : gather_bench_stats fn clock mx wu bt mbs mec fuel = some (st, nc)) :
    st.batch_count = 0 := by
  unfold gather_bench_stats at h
  refine gatherLoop_inv fn clock mx _ mbs mec (clock 0)
    (P := fun s => s.stats.batch_count = 0 ∧ 1 ≤ s.stats.batch_size)
    (Q := fun r => r.1.batch_count = 0) ?_ fuel _ ⟨rfl, hmbs⟩ (st, nc) h
  intro s hP
  rw [gatherStep_eq]
  have hrej : ¬(batch_reject fn s.calls s.stats.batch_size.toNat = 0) :=
    batch_reject_false fn s.calls s.stats.batch_size.toNat (by omega) hfn
  rw [if_neg hrej]
  unfold deadline_phase
  dsimp only
  split_ifs <;> simp only [Sum.elim_inl, Sum.elim_inr] <;>
    first
      | exact hP.1
      | exact ⟨rfl, le_trans hmbs (resize_batch_size_ge _ _ _ _ _ _)⟩
      | exact hP

theorem accumulate_batch_count (st : Bench_Stats) (bt : Int) :
    (accumulate st bt).batch_count = st.batch_count + 1 := rfl

theorem resize_batch_count (st : Bench_Stats) (total mx bt mbs mec : Int) :
    (resize st total mx bt mbs mec).batch_count = 0 := rfl

theorem tdiv_le_one (a b : Int) (h1 : 0 ≤ a) (h2 : a ≤ b) (h3 : 0 < b) :
    Int.tdiv a b ≤ 1 := by
  rw [Int.tdiv_eq_ediv h1 (le_of_lt h3)]
  calc a / b ≤ b / b := Int.ediv_le_ediv h3 h2
  _ = 1 := Int.ediv_self (by omega)

/-- With a unit noise floor, unit minimum batch size and a batch count bounded
by the elapsed time, the resize formula never produces a batch size above 1. -/
theorem resize_batch_size_one (st : Bench_Stats) (total mx mec : Int)
    (hsize : st.batch_size = 1) (hcnt0 : 0 ≤ st.batch_count)
    (hcnt : st.batch_count ≤ total) (htot : 1 ≤ total) (hmx : total ≤ mx)
    (hmec : 1 ≤ mec) :
    (resize st total mx 1 1 mec).batch_size = 1 := by
  unfold resize
  dsimp only
  rw [hsize, mul_one, Int.tdiv_one]
  set ncv := if mx - total < mec then mec else mx - total with hnc
  have hnc1 : 1 ≤ ncv := by rw [hnc]; split_ifs <;> omega
  have hncge : mx - total ≤ ncv := by rw [hnc]; split_ifs <;> omega
  have hden : 0 < total * ncv := by nlinarith
  rw [if_neg (not_le.mpr hden)]
  set itv := if st.batch_count ≤ 0 then 1 else st.batch_count with hit
  have hit0 : 0 ≤ itv := by rw [hit]; split_ifs <;> omega
  have hitle : itv ≤ total := by rw [hit]; split_ifs <;> omega
  have hnumle : itv * (mx - total) ≤ total * ncv := by
    calc itv * (mx - total) ≤ total * (mx - total) :=
      mul_le_mul_of_nonneg_right hitle (by omega)
    _ ≤ total * ncv := mul_le_mul_of_nonneg_left hncge (by omega)
  have hnum0 : 0 ≤ itv * (mx - total) := mul_nonneg hit0 (by omega)
  have hbs := tdiv_le_one _ _ hnum0 hnumle hden
  split_ifs with hlt
  · rfl
  · exact le_antisymm hbs (not_lt.mp hlt)

/-- A step of the no-coalescing configuration (noise floor clamped to 1,
`min_batch_size = 1`) preserves `NoCoalesceInv` and exits with batch size 1,
provided the clock advances by at least 1 ns per read. -/
theorem gatherStep_noCoalesce (fn : Nat → Bool) (clock : Nat → Int)
    (mx mec start : Int) (hmx : 0 ≤ mx) (hmec : 1 ≤ mec)
    (hclock : ∀ i, clock i + 1 ≤ clock (i + 1)) (s : GatherState)
    (h : NoCoalesceInv clock start mx s) :
    Sum.elim (fun r => r.1.batch_size = 1) (NoCoalesceInv clock start mx)
      (gatherStep fn clock mx 1 1 mec start s) := by
  obtain ⟨hsz, hc0, hcb, hft, ht0, htm⟩ := h
  rw [gatherStep_eq]
  have hnow : s.fromT + 1 ≤ clock (s.iter + 1) := by
    have := hclock s.iter
    omega
  set stats1 := if batch_reject fn s.calls s.stats.batch_size.toNat = 0 then
    accumulate s.stats (clock (s.iter + 1) - s.fromT) else s.stats with hs1
  have hsz1 : stats1.batch_size = 1 := by
    rw [hs1, stats1_batch_size]; exact hsz
  have hc01 : 0 ≤ stats1.batch_count := by
    rw [hs1]; split_ifs
    · rw [accumulate_batch_count]; omega
    · exact hc0
  have hcb1 : stats1.batch_count ≤ clock (s.iter + 1) - start := by
    rw [hs1]; split_ifs
    · rw [accumulate_batch_count]; omega
    · omega
  unfold deadline_phase
  dsimp only
  split_ifs with h1 h2
  · exact hsz1
  · refine ⟨?_, le_refl 0, ?_, rfl, hmx, le_refl mx⟩
    · exact resize_batch_size_one stats1 _ mx mec hsz1 hc01 hcb1
        (by omega) (by omega) hmec
    · rw [resize_batch_count]
      dsimp only
      omega
  · exact ⟨hsz1, hc01, by dsimp only; omega, rfl, ht0, htm⟩

/-- In the no-coalescing configuration (noise floor parameter 0, minimum
batch size 1) with an advancing clock, every terminating run returns
`batch_size = 1`. -/
theorem gather_noCoalesce (fn : Nat → Bool) (clock : Nat → Int)
    (mx wu mec : Int) (hmx : 0 ≤ mx) (hmec : 1 ≤ mec)
    (hclock : ∀ i, clock i + 1 ≤ clock (i + 1)) (fuel : Nat)
    (st : Bench_Stats) (nc : Nat)
    (h : gather_bench_stats fn clock mx wu 0 1 mec fuel = some (st, nc)) :
    st.batch_size = 1 := by
  unfold gather_bench_stats at h
  rw [if_pos (le_refl (0 : Int))] at h
  refine gatherLoop_inv fn clock mx 1 1 mec (clock 0)
    (P := NoCoalesceInv clock (clock 0) mx)
    (Q := fun r => r.1.batch_size = 1)
    (fun s hs => gatherStep_noCoalesce fn clock mx mec (clock 0) hmx hmec
      hclock s hs) fuel _ ?_ (st, nc) h
  refine ⟨rfl, le_refl 0, by simp [init_stats], rfl, ?_, ?_⟩ <;>
    dsimp only <;> split_ifs <;> omega

theorem MILISECOND_NANOSECONDS_eq : MILISECOND_NANOSECONDS = 1000000 := rfl

theorem process_stats_iters_def (stats : Bench_Stats) (rm : Int) :
    (process_stats stats rm).iters =
      stats.batch_size * rm * stats.batch_count := rfl

theorem process_stats_batch_size_def (stats : Bench_Stats) (rm : Int) :
    (process_stats stats rm).batch_size = stats.batch_size * rm := rfl

theorem process_stats_mean_def (stats : Bench_Stats) (rm : Int) :
    (process_stats stats rm).mean_ms =
      if stats.batch_size * rm * stats.batch_count ≠ 0 then
        ((stats.time_sum + stats.mean_time_estimate * stats.batch_count :
            Int) : ℝ) /
          ((stats.batch_size * rm * stats.batch_count *
            MILISECOND_NANOSECONDS : Int) : ℝ)
      else 0 := rfl

theorem process_stats_deviation_def (stats : Bench_Stats) (rm : Int) :
    (process_stats stats rm).deviation_ms =
      (if stats.batch_count > 1 then
        Real.sqrt |((stats.squared_time_sum : ℝ) -
            (stats.time_sum : ℝ) * (stats.time_sum : ℝ) /
              (stats.batch_count : ℝ)) / ((stats.batch_count : ℝ) - 1)| /
          (MILISECOND_NANOSECONDS : ℝ)
       else 0) /
      (if stats.batch_size * rm = 0 then 1
       else Real.sqrt ((stats.batch_size * rm : Int) : ℝ)) := rfl

/-- The CLT min/max spreading keeps the ordering `0 ≤ min ≤ mean ≤ max`
whenever the uncorrected values are ordered and the stretch factor is
nonnegative. -/
theorem minmax_correct (mean minv maxv s : ℝ) (hm : 0 ≤ mean)
    (hmin : minv ≤ mean) (hmax : mean ≤ maxv) (hs : 0 ≤ s) :
    0 ≤ (if mean + (minv - mean) * s < 0 then 0
         else mean + (minv - mean) * s) ∧
    (if mean + (minv - mean) * s < 0 then 0
     else mean + (minv - mean) * s) ≤ mean ∧
    mean ≤ mean + (maxv - mean) * s := by
  split_ifs with h
  · exact ⟨le_refl 0, hm, by nlinarith⟩
  · exact ⟨not_lt.mp h, by nlinarith, by nlinarith⟩

theorem dev_nonneg (c : Prop) [Decidable c] (v M sden : ℝ) (hM : 0 ≤ M)
    (hs : 0 ≤ sden) :
    0 ≤ (if c then Real.sqrt v / M else 0) / sden := by
  apply div_nonneg _ hs
  split_ifs
  · exact div_nonneg (Real.sqrt_nonneg v) hM
  · exact le_refl 0

theorem deadline_phase_inl (mx bt mbs mec start : Int) (stats1 : Bench_Stats)
    (s : GatherState) (now : Int) (calls' : Nat) (st : Bench_Stats) (nc : Nat)
    (h : deadline_phase mx bt mbs mec start stats1 s now calls' =
      Sum.inl (st, nc)) : st = stats1 ∧ nc = calls' := by
  unfold deadline_phase at h
  dsimp only at h
  split_ifs at h
  cases h
  exact ⟨rfl, rfl⟩

/-- Characterisation of the calibration fold of `calculate_clock_stats`:
the first component accumulates the sum of the deltas, the second and third
track the minimum and maximum of the initial value and all deltas seen. -/
theorem clock_fold_spec (diff : Nat → Int) :
    ∀ (n : Nat) (a m M : Int),
      (((List.range n).foldl
        (fun (acc : Int × Int × Int) i =>
          (acc.1 + diff i,
           if diff i < acc.2.1 then diff i else acc.2.1,
           if diff i > acc.2.2 then diff i else acc.2.2)) (a, m, M)).1 =
        a + ((List.range n).map diff).sum) ∧
      (((List.range n).foldl
        (fun (acc : Int × Int × Int) i =>
          (acc.1 + diff i,
           if diff i < acc.2.1 then diff i else acc.2.1,
           if diff i > acc.2.2 then diff i else acc.2.2)) (a, m, M)).2.1 ≤ m) ∧
      (∀ i < n, ((List.range n).foldl
        (fun (acc : Int × Int × Int) i =>
          (acc.1 + diff i,
           if diff i < acc.2.1 then diff i else acc.2.1,
           if diff i > acc.2.2 then diff i else acc.2.2))
          (a, m, M)).2.1 ≤ diff i) ∧
      (((List.range n).foldl
        (fun (acc : Int × Int × Int) i =>
          (acc.1 + diff i,
           if diff i < acc.2.1 then diff i else acc.2.1,
           if diff i > acc.2.2 then diff i else acc.2.2)) (a, m, M)).2.1 = m ∨
        ∃ i, i < n ∧ ((List.range n).foldl
        (fun (acc : Int × Int × Int) i =>
          (acc.1 + diff i,
           if diff i < acc.2.1 then diff i else acc.2.1,
           if diff i > acc.2.2 then diff i else acc.2.2))
          (a, m, M)).2.1 = diff i) ∧
      (M ≤ ((List.range n).foldl
        (fun (acc : Int × Int × Int) i =>
          (acc.1 + diff i,
           if diff i < acc.2.1 then diff i else acc.2.1,
           if diff i > acc.2.2 then diff i else acc.2.2)) (a, m, M)).2.2) ∧
      (∀ i < n, diff i ≤ ((List.range n).foldl
        (fun (acc : Int × Int × Int) i =>
          (acc.1 + diff i,
           if diff i < acc.2.1 then diff i else acc.2.1,
           if diff i > acc.2.2 then diff i else acc.2.2))
          (a, m, M)).2.2) ∧
      (((List.range n).foldl
        (fun (acc : Int × Int × Int) i =>
          (acc.1 + diff i,
           if diff i < acc.2.1 then diff i else acc.2.1,
           if diff i > acc.2.2 then diff i else acc.2.2)) (a, m, M)).2.2 = M ∨
        ∃ i, i < n ∧ ((List.range n).foldl
        (fun (acc : Int × Int × Int) i =>
          (acc.1 + diff i,
           if diff i < acc.2.1 then diff i else acc.2.1,
           if diff i > acc.2.2 then diff i else acc.2.2))
          (a, m, M)).2.2 = diff i) := by
  intro n
  induction n with
  | zero => intro a m M; simp
  | succ k ih =>
    intro a m M
    obtain ⟨ih1, ih2, ih3, ih4, ih5, ih6, ih7⟩ := ih a m M
    rw [List.range_succ]
    simp only [List.foldl_append, List.foldl_cons, List.foldl_nil,
      List.map_append, List.sum_append, List.map_cons, List.map_nil,
      List.sum_cons, List.sum_nil]
    refine ⟨?_, ?_, ?_, ?_, ?_, ?_, ?_⟩
    · rw [ih1]; ring
    · split_ifs <;> omega
    · intro i hi
      by_cases hik : i < k
      · have := ih3 i hik
        split_ifs <;> omega
      · have hik' : i = k := by omega
        subst hik'
        split_ifs <;> omega
    · split_ifs with h
      · exact Or.inr ⟨k, by omega, rfl⟩
      · rcases ih4 with h4 | ⟨i, hi, hie⟩
        · exact Or.inl h4
        · exact Or.inr ⟨i, by omega, hie⟩
    · split_ifs <;> omega
    · intro i hi
      by_cases hik : i < k
      · have := ih6 i hik
        split_ifs <;> omega
      · have hik' : i = k := by omega
        subst hik'
        split_ifs <;> omega
    · split_ifs with h
      · exact Or.inr ⟨k, by omega, rfl⟩
      · rcases ih7 with h7 | ⟨i, hi, hie⟩
        · exact Or.inl h7
        · exact Or.inr ⟨i, by omega, hie⟩

/-! ### Claim C1 -/

/-- C1 (counterexample): the claim as stated is false.  The raw statistics
`batch_count = 1, batch_size = 1, time_sum = -1, squared_time_sum = 1,
min_batch_time = max_batch_time = -1, mean_time_estimate = 0` satisfy all of
the claim's hypotheses (`batch_count ≥ 0`, `batch_size ≥ 0`, and with
multiplier `runs_mult = 1 ≥ 1`; they even satisfy the two assertions at the
top of `process_stats`), yet the reduced result has `mean_ms = -1/1000000 < 0`,
contradicting `0 ≤ min ≤ mean ≤ max` and "all fields ≥ 0". -/
theorem C1_counterexample :
    (process_stats ⟨1, 1, -1, 1, -1, -1, 0⟩ 1).mean_ms < 0 := by
  unfold process_stats
  norm_num [MILISECOND_NANOSECONDS_eq]

/-- C1 (amended): for every `Bench_Stats` with `batch_count ≥ 0` and
`batch_size ≥ 0` that additionally satisfies the sampler invariants
`min_batch_time * batch_count ≤ time_sum ≤ max_batch_time * batch_count`
(the assertions at the top of `process_stats`) and has a nonnegative adjusted
total time `0 ≤ time_sum + mean_time_estimate * batch_count` (true of any run
under a monotone clock), and every multiplier `runs_mult ≥ 1`, the `Result`
returned by `process_stats` satisfies `0 ≤ min ≤ mean ≤ max`, all fields ≥ 0,
and `iters = (batch_size * runs_mult) * batch_count`. -/
theorem C1_result_invariants (stats : Bench_Stats) (rm : Int)
    (h1 : 0 ≤ stats.batch_count) (h2 : 0 ≤ stats.batch_size) (h3 : 1 ≤ rm)
    (h4 : stats.min_batch_time * stats.batch_count ≤ stats.time_sum)
    (h5 : stats.time_sum ≤ stats.max_batch_time * stats.batch_count)
    (h6 : 0 ≤ stats.time_sum + stats.mean_time_estimate * stats.batch_count) :
    0 ≤ (process_stats stats rm).min_ms ∧
    (process_stats stats rm).min_ms ≤ (process_stats stats rm).mean_ms ∧
    (process_stats stats rm).mean_ms ≤ (process_stats stats rm).max_ms ∧
    0 ≤ (process_stats stats rm).deviation_ms ∧
    0 ≤ (process_stats stats rm).batch_size ∧
    0 ≤ (process_stats stats rm).iters ∧
    (process_stats stats rm).iters =
      stats.batch_size * rm * stats.batch_count := by
  unfold process_stats
  dsimp only
  rw [MILISECOND_NANOSECONDS_eq]
  set b : Int := stats.batch_size * rm with hb
  set n : Int := stats.batch_count with hn
  have hb0 : 0 ≤ b := mul_nonneg h2 (by omega)
  have hsnn : (0:ℝ) ≤ if b = 0 then 1 else Real.sqrt (b : ℝ) := by
    split_ifs
    · norm_num
    · exact Real.sqrt_nonneg _
  by_cases hit : b * n ≠ 0
  · have hbn : b ≠ 0 ∧ n ≠ 0 := mul_ne_zero_iff.mp hit
    have hb1 : 1 ≤ b := by rcases hbn with ⟨hx, -⟩; omega
    have hn1 : 1 ≤ n := by rcases hbn with ⟨-, hx⟩; omega
    simp only [if_pos hit, if_neg hbn.1]
    have hMd : (0:ℝ) < ((b * n * 1000000 : Int) : ℝ) := by
      push_cast
      have hbr : (1:ℝ) ≤ (b:ℝ) := by exact_mod_cast hb1
      have hnr : (1:ℝ) ≤ (n:ℝ) := by exact_mod_cast hn1
      nlinarith
    have hBd : (0:ℝ) < ((b * 1000000 : Int) : ℝ) := by
      push_cast
      have hbr : (1:ℝ) ≤ (b:ℝ) := by exact_mod_cast hb1
      nlinarith
    have hmean0 : (0:ℝ) ≤
        ((stats.time_sum + stats.mean_time_estimate * n : Int) : ℝ) /
          ((b * n * 1000000 : Int) : ℝ) := by
      apply div_nonneg _ (le_of_lt hMd)
      exact_mod_cast h6
    have hkeymin : (stats.min_batch_time + stats.mean_time_estimate) * n ≤
        stats.time_sum + stats.mean_time_estimate * n := by nlinarith
    have hkeymax : stats.time_sum + stats.mean_time_estimate * n ≤
        (stats.max_batch_time + stats.mean_time_estimate) * n := by nlinarith
    have hminle :
        ((stats.min_batch_time + stats.mean_time_estimate : Int) : ℝ) /
          ((b * 1000000 : Int) : ℝ) ≤
        ((stats.time_sum + stats.mean_time_estimate * n : Int) : ℝ) /
          ((b * n * 1000000 : Int) : ℝ) := by
      rw [div_le_div_iff₀ hBd hMd]
      have hc : ((stats.min_batch_time + stats.mean_time_estimate : Int) : ℝ)
          * (n:ℝ) ≤
          ((stats.time_sum + stats.mean_time_estimate * n : Int) : ℝ) := by
        exact_mod_cast hkeymin
      push_cast
      push_cast at hc
      nlinarith [mul_le_mul_of_nonneg_right hc
        (by positivity : (0:ℝ) ≤ (b:ℝ) * 1000000)]
    have hmaxle :
        ((stats.time_sum + stats.mean_time_estimate * n : Int) : ℝ) /
          ((b * n * 1000000 : Int) : ℝ) ≤
        ((stats.max_batch_time + stats.mean_time_estimate : Int) : ℝ) /
          ((b * 1000000 : Int) : ℝ) := by
      rw [div_le_div_iff₀ hMd hBd]
      have hc : ((stats.time_sum + stats.mean_time_estimate * n : Int) : ℝ) ≤
          ((stats.max_batch_time + stats.mean_time_estimate : Int) : ℝ)
            * (n:ℝ) := by
        exact_mod_cast hkeymax
      push_cast
      push_cast at hc
      nlinarith [mul_le_mul_of_nonneg_right hc
        (by positivity : (0:ℝ) ≤ (b:ℝ) * 1000000)]
    obtain ⟨g1, g2, g3⟩ := minmax_correct _ _ _ (Real.sqrt (b:ℝ)) hmean0
      hminle hmaxle (Real.sqrt_nonneg _)
    refine ⟨g1, g2, g3, ?_, hb0, ?_, trivial⟩
    · exact dev_nonneg _ _ _ _ (by norm_num) (Real.sqrt_nonneg _)
    · positivity
  · push_neg at hit
    simp only [hit, ne_eq, not_true_eq_false, if_false, sub_zero, zero_add,
      zero_mul, mul_zero, lt_self_iff_false, zero_sub, neg_zero]
    refine ⟨le_refl 0, le_refl 0, le_refl 0, ?_, hb0, by omega, trivial⟩
    exact dev_nonneg _ _ _ _ (by norm_num) hsnn

/-- C1 witness: the amended theorem applied to a concrete raw-statistics
record satisfying its hypotheses. -/
theorem C1_witness :
    0 ≤ (process_stats ⟨2, 3, 5, 7, 1, 4, 6⟩ 2).min_ms ∧
    (process_stats ⟨2, 3, 5, 7, 1, 4, 6⟩ 2).min_ms ≤
      (process_stats ⟨2, 3, 5, 7, 1, 4, 6⟩ 2).mean_ms ∧
    (process_stats ⟨2, 3, 5, 7, 1, 4, 6⟩ 2).mean_ms ≤
      (process_stats ⟨2, 3, 5, 7, 1, 4, 6⟩ 2).max_ms ∧
    0 ≤ (process_stats ⟨2, 3, 5, 7, 1, 4, 6⟩ 2).deviation_ms ∧
    0 ≤ (process_stats ⟨2, 3, 5, 7, 1, 4, 6⟩ 2).batch_size ∧
    0 ≤ (process_stats ⟨2, 3, 5, 7, 1, 4, 6⟩ 2).iters ∧
    (process_stats ⟨2, 3, 5, 7, 1, 4, 6⟩ 2).iters = 3 * 2 * 2 :=
  C1_result_invariants ⟨2, 3, 5, 7, 1, 4, 6⟩ 2 (by decide) (by decide)
    (by decide) (by decide) (by decide) (by decide)

/-! ### Claim C2 -/

set_option maxRecDepth 40000 in
/-- C2 (counterexample): the claim's batch-size formula
`(batch_count * batch_size * remaining) / (total_elapsed * num_checks)` is
wrong at a checkpoint with `batch_count = 0`: the code first clamps
`iters = batch_count * batch_size` to 1 and uses the clamped value in the
numerator.  A run with an always-rejecting function, clock reads 0, 6, 2000,
`max_time_ns = 1000`, `warm_up_ns = 5`, `noise_floor_ns = 10^9`,
`min_batch_size = 1`, `min_end_checks = 1` reaches its only resize checkpoint
with `batch_count = 0`, `total = 6`, `remaining = 994` and ends with
`batch_size = 994 / 6 = 165`, whereas the claimed formula gives
`max(min_batch_size, 0) = 1`. -/
theorem C2_counterexample :
    (gather_bench_stats (fun _ => false)
        (fun i => if i = 0 then 0 else if i = 1 then 6 else 2000)
        1000 5 1000000000 1 1 3).map (fun r => r.1.batch_size) = some 165 ∧
    max (1 : Int) (Int.tdiv (0 * 1 * (1000 - 6))
      (6 * max (Int.tdiv (1000 - 6) 1000000000) 1)) = 1 := by
  constructor
  · decide
  · decide

/-- C2 (amended): at every resize checkpoint (elapsed total past the phase
deadline but not past `max_time_ns`, hence `0 < total_elapsed`), `resize` sets
`mean_time_estimate = time_sum / max(batch_count * batch_size, 1)` (truncating
division, divisor clamped to at least 1), sets
`batch_size = max(min_batch_size, (max(batch_count * batch_size, 1) *
remaining) / (total_elapsed * num_checks))` with
`num_checks = max(remaining / noise_floor_ns, min_end_checks)` — i.e. the
claim's formula with the same clamped product in the numerator — resets
`batch_count`, `time_sum`, `squared_time_sum`, `min_delta`, `max_delta` to
their initial empty values, and the surrounding deadline logic installs
`max_time_ns` as the new phase deadline. -/
theorem C2_resize_checkpoint (stats : Bench_Stats) (total mx bt mbs mec : Int)
    (htot : 0 < total) (hmec : 1 ≤ mec) :
    (resize stats total mx bt mbs mec =
      { batch_count := 0
        batch_size := max mbs (Int.tdiv
          (max (stats.batch_count * stats.batch_size) 1 * (mx - total))
          (total * max (Int.tdiv (mx - total) bt) mec))
        time_sum := 0
        squared_time_sum := 0
        min_batch_time := sentinel
        max_batch_time := 0
        mean_time_estimate := Int.tdiv stats.time_sum
          (max (stats.batch_count * stats.batch_size) 1) }) ∧
    (∀ (start : Int) (s : GatherState) (stats1 : Bench_Stats) (now : Int)
        (calls' : Nat),
      now - start > s.to_time → ¬(now - start > mx) →
      deadline_phase mx bt mbs mec start stats1 s now calls' =
        Sum.inr { stats := resize stats1 (now - start) mx bt mbs mec
                  to_time := mx
                  fromT := now
                  calls := calls'
                  iter := s.iter + 1 }) := by
  constructor
  · unfold resize
    dsimp only
    have hiters : (if stats.batch_count * stats.batch_size ≤ 0 then 1
        else stats.batch_count * stats.batch_size) =
        max (stats.batch_count * stats.batch_size) 1 := by
      split_ifs <;> omega
    rw [hiters]
    have hnc : (if Int.tdiv (mx - total) bt < mec then mec
        else Int.tdiv (mx - total) bt) =
        max (Int.tdiv (mx - total) bt) mec := by
      split_ifs <;> omega
    rw [hnc]
    have hden : ¬(total * max (Int.tdiv (mx - total) bt) mec ≤ 0) := by
      have h1 : 1 ≤ max (Int.tdiv (mx - total) bt) mec :=
        le_trans hmec (le_max_right _ _)
      nlinarith
    rw [if_neg hden]
    have hbs : (if Int.tdiv
        (max (stats.batch_count * stats.batch_size) 1 * (mx - total))
        (total * max (Int.tdiv (mx - total) bt) mec) < mbs then mbs
        else Int.tdiv (max (stats.batch_count * stats.batch_size) 1 *
          (mx - total)) (total * max (Int.tdiv (mx - total) bt) mec)) =
        max mbs (Int.tdiv (max (stats.batch_count * stats.batch_size) 1 *
          (mx - total)) (total * max (Int.tdiv (mx - total) bt) mec)) := by
      split_ifs <;> omega
    rw [hbs]
  · intro start s stats1 now calls' hgt hle
    unfold deadline_phase
    dsimp only
    rw [if_pos hgt, if_neg hle]

/-- C2 witness: the amended resize equation at a concrete checkpoint state,
evaluated to literal values. -/
theorem C2_witness :
    resize ⟨2, 3, 5, 7, 1, 4, 6⟩ 10 100 7 2 3 =
      ⟨0, 4, 0, 0, sentinel, 0, 0⟩ := by
  have h := (C2_resize_checkpoint ⟨2, 3, 5, 7, 1, 4, 6⟩ 10 100 7 2 3
    (by decide) (by decide)).1
  rw [h]
  decide

/-! ### Claim C3 -/

/-- C3: with a measured function that rejects every call (and a positive
minimum batch size, so every batch contains at least one call), the sampling
loop terminates (shown with fuel `max_time_ns + 1` under a clock advancing at
least 1 ns per batch) with `batch_count = 0` in the returned raw statistics,
and `process_stats` on any such returned statistics yields the defined
zero-activity result: `iters = 0`, `mean_ms = 0` (and `deviation_ms = 0`),
with every division guarded. -/
theorem C3_always_reject_zero_activity (fn : Nat → Bool) (clock : Nat → Int)
    (mx wu bt mbs mec rm : Int) (hfn : ∀ k, fn k = false) (hmbs : 1 ≤ mbs)
    (hmx : 0 ≤ mx) (hclock : ∀ i, clock i + 1 ≤ clock (i + 1)) :
    (gather_bench_stats fn clock mx wu bt mbs mec (mx.toNat + 1)).isSome ∧
    (∀ (fuel : Nat) (st : Bench_Stats) (nc : Nat),
      gather_bench_stats fn clock mx wu bt mbs mec fuel = some (st, nc) →
      st.batch_count = 0 ∧ (process_stats st rm).iters = 0 ∧
      (process_stats st rm).mean_ms = 0 ∧
      (process_stats st rm).deviation_ms = 0) := by
  refine ⟨gather_terminates fn clock mx wu bt mbs mec hmx hclock, ?_⟩
  intro fuel st nc h
  have hc : st.batch_count = 0 :=
    gather_always_reject fn clock mx wu bt mbs mec hfn hmbs fuel st nc h
  refine ⟨hc, ?_, ?_, ?_⟩
  · rw [process_stats_iters_def, hc, mul_zero]
  · rw [process_stats_mean_def]
    simp [hc]
  · rw [process_stats_deviation_def]
    simp [hc]

/-- C3 witness: the theorem applied to the always-false function, the identity
clock and concrete parameters; the run returns raw statistics with
`batch_count = 0` and the reducer yields the zero-activity result. -/
theorem C3_witness :
    (⟨0, 1, 0, 0, sentinel, 0, 0⟩ : Bench_Stats).batch_count = 0 ∧
    (process_stats ⟨0, 1, 0, 0, sentinel, 0, 0⟩ 1).iters = 0 ∧
    (process_stats ⟨0, 1, 0, 0, sentinel, 0, 0⟩ 1).mean_ms = 0 ∧
    (process_stats ⟨0, 1, 0, 0, sentinel, 0, 0⟩ 1).deviation_ms = 0 :=
  (C3_always_reject_zero_activity (fun _ => false) (fun i => (i : Int))
    2 1 1 1 1 1 (fun _ => rfl) (by decide) (by decide)
    (by intro i; push_cast; omega)).2 3 ⟨0, 1, 0, 0, sentinel, 0, 0⟩ 3
    (by decide)

/-! ### Claim C4 -/

/-- C4: within one loop iteration, the statistics entering the deadline logic
are unchanged when any of the `batch_size` calls of the measured function
returned `false`, and otherwise are the old statistics with
`delta = batch_duration - mean_time_estimate` added to `time_sum`, `delta²`
added to `squared_time_sum`, `batch_count` incremented, and
`min_batch_time`/`max_batch_time` updated from `delta` (not from the raw batch
duration); in both cases the iteration's closing clock read `now` feeds the
deadline comparison (`total = now - start`), becomes the new batch boundary
`fromT`, and the call counter advances by the whole batch. -/
theorem C4_batch_rejection_frame (fn : Nat → Bool) (clock : Nat → Int)
    (mx bt mbs mec start : Int) (s : GatherState) :
    gatherStep fn clock mx bt mbs mec start s =
      deadline_phase mx bt mbs mec start
        (if ∀ i < s.stats.batch_size.toNat, fn (s.calls + i) = true then
          { batch_count := s.stats.batch_count + 1
            batch_size := s.stats.batch_size
            time_sum := s.stats.time_sum +
              ((clock (s.iter + 1) - s.fromT) - s.stats.mean_time_estimate)
            squared_time_sum := s.stats.squared_time_sum +
              ((clock (s.iter + 1) - s.fromT) - s.stats.mean_time_estimate) *
                ((clock (s.iter + 1) - s.fromT) - s.stats.mean_time_estimate)
            min_batch_time := min s.stats.min_batch_time
              ((clock (s.iter + 1) - s.fromT) - s.stats.mean_time_estimate)
            max_batch_time := max s.stats.max_batch_time
              ((clock (s.iter + 1) - s.fromT) - s.stats.mean_time_estimate)
            mean_time_estimate := s.stats.mean_time_estimate }
         else s.stats)
        s (clock (s.iter + 1)) (s.calls + s.stats.batch_size.toNat) := by
  rw [gatherStep_eq]
  have hst : (if batch_reject fn s.calls s.stats.batch_size.toNat = 0 then
      accumulate s.stats (clock (s.iter + 1) - s.fromT) else s.stats) =
      (if ∀ i < s.stats.batch_size.toNat, fn (s.calls + i) = true then
        { batch_count := s.stats.batch_count + 1
          batch_size := s.stats.batch_size
          time_sum := s.stats.time_sum +
            ((clock (s.iter + 1) - s.fromT) - s.stats.mean_time_estimate)
          squared_time_sum := s.stats.squared_time_sum +
            ((clock (s.iter + 1) - s.fromT) - s.stats.mean_time_estimate) *
              ((clock (s.iter + 1) - s.fromT) - s.stats.mean_time_estimate)
          min_batch_time := min s.stats.min_batch_time
            ((clock (s.iter + 1) - s.fromT) - s.stats.mean_time_estimate)
          max_batch_time := max s.stats.max_batch_time
            ((clock (s.iter + 1) - s.fromT) - s.stats.mean_time_estimate)
          mean_time_estimate := s.stats.mean_time_estimate }
       else s.stats) := by
    by_cases hc : ∀ i < s.stats.batch_size.toNat, fn (s.calls + i) = true
    · rw [if_pos ((batch_reject_eq_zero_iff fn s.calls _).mpr hc), if_pos hc]
      unfold accumulate
      dsimp only
      congr 1
      · split_ifs <;> omega
      · split_ifs <;> omega
    · rw [if_neg (fun h0 => hc ((batch_reject_eq_zero_iff fn s.calls _).mp h0)),
        if_neg hc]
  rw [hst]

/-! ### Claim C5 -/

/-- C5: the reported deviation is exactly 0 when `batch_count ≤ 1`; otherwise
(for a nonzero effective batch size) it is
`sqrt |(squared_time_sum - time_sum² / n) / (n - 1)|` with `n = batch_count`,
converted to milliseconds (divided by 10^6) and divided by
`sqrt (batch_size * runs_mult)` to undo the CLT shrinkage; and it is always
nonnegative. -/
theorem C5_deviation_formula (stats : Bench_Stats) (rm : Int) :
    (stats.batch_count ≤ 1 → (process_stats stats rm).deviation_ms = 0) ∧
    (1 < stats.batch_count → stats.batch_size * rm ≠ 0 →
      (process_stats stats rm).deviation_ms =
        Real.sqrt |((stats.squared_time_sum : ℝ) -
            (stats.time_sum : ℝ) * (stats.time_sum : ℝ) /
              (stats.batch_count : ℝ)) / ((stats.batch_count : ℝ) - 1)| /
          1000000 / Real.sqrt ((stats.batch_size * rm : Int) : ℝ)) ∧
    0 ≤ (process_stats stats rm).deviation_ms := by
  unfold process_stats
  dsimp only
  rw [MILISECOND_NANOSECONDS_eq]
  refine ⟨?_, ?_, ?_⟩
  · intro hle
    rw [if_neg (by omega : ¬stats.batch_count > 1)]
    exact zero_div _
  · intro hgt hbne
    rw [if_pos hgt, if_neg hbne]
    norm_num
  · apply dev_nonneg
    · norm_num
    · split_ifs
      · norm_num
      · exact Real.sqrt_nonneg _

/-- C5 witness: the formula case of the theorem at a concrete record with
`batch_count = 2`. -/
theorem C5_witness :
    (process_stats ⟨2, 1, 0, 2, -1, 1, 0⟩ 1).deviation_ms =
      Real.sqrt |(((2 : Int) : ℝ) -
          ((0 : Int) : ℝ) * ((0 : Int) : ℝ) / ((2 : Int) : ℝ)) /
          (((2 : Int) : ℝ) - 1)| / 1000000 /
        Real.sqrt (((1 : Int) * 1 : Int) : ℝ) :=
  (C5_deviation_formula ⟨2, 1, 0, 2, -1, 1, 0⟩ 1).2.1 (by decide) (by decide)

/-! ### Claim C6 -/

/-- C6: with `min_batch_size ≥ 1`, every step of the sampling loop preserves
the state invariant `min_delta * batch_count ≤ time_sum ≤ max_delta *
batch_count`, `batch_size ≥ 1`, `batch_count ≥ 0` (so it holds at every
iteration boundary, exits included), and every terminating run returns raw
statistics satisfying the invariant — in particular the two assertions at the
top of `process_stats` hold for every `Bench_Stats` it produces. -/
theorem C6_sampler_invariants (fn : Nat → Bool) (clock : Nat → Int)
    (mx wu bt mbs mec : Int) (hmbs : 1 ≤ mbs) :
    (∀ (bt' start : Int) (s : GatherState), StatsInv s.stats →
      Sum.elim (fun r => StatsInv r.1) (fun s' => StatsInv s'.stats)
        (gatherStep fn clock mx bt' mbs mec start s)) ∧
    (∀ (fuel : Nat) (st : Bench_Stats) (nc : Nat),
      gather_bench_stats fn clock mx wu bt mbs mec fuel = some (st, nc) →
      StatsInv st ∧ process_stats_asserts st) := by
  constructor
  · intro bt' start s hs
    exact gatherStep_statsInv fn clock mx bt' mbs mec start hmbs s hs
  · intro fuel st nc h
    have h1 := gather_statsInv fn clock mx wu bt mbs mec hmbs fuel st nc h
    exact ⟨h1, h1.1, h1.2.1⟩

/-- C6 witness: the invariant and the `process_stats` assertions for the raw
statistics returned by a concrete three-iteration run. -/
theorem C6_witness :
    StatsInv ⟨1, 1, 0, 0, 0, 0, 1⟩ ∧
    process_stats_asserts ⟨1, 1, 0, 0, 0, 0, 1⟩ :=
  (C6_sampler_invariants (fun _ => true) (fun i => (i : Int)) 2 1 1 1 1
    (by decide)).2 3 ⟨1, 1, 0, 0, 0, 0, 1⟩ 3 (by decide)

/-! ### Claim C7 -/

set_option maxRecDepth 100000 in
/-- C7 (counterexample): the claim as stated quantifies over every execution,
but a coalescing-free batch size is only guaranteed when the clock advances
between batches.  With noise-floor parameter 0 (clamped to 1 inside
`gather_bench_stats`), `min_batch_size = 1`, a clock that reads 0 for the
first 101 reads, then 6, then 2000, and an always-keep function, the resize
checkpoint sees 101 retained batches within 6 ns of elapsed time and sets
`batch_size = (101 * 994) / (6 * 994) = 16 ≠ 1`; the returned `Result` has
`batch_size = 16` where the claim demands `1 * calls_per_logical_unit = 1`. -/
theorem C7_counterexample :
    (gather_bench_stats (fun _ => true)
        (fun i => if i ≤ 100 then 0 else if i = 101 then 6 else 2000)
        1000 5 0 1 1 200).map (fun r => r.1) =
      some ⟨1, 16, 1994, 3976036, 1994, 1994, 0⟩ ∧
    (process_stats ⟨1, 16, 1994, 3976036, 1994, 1994, 0⟩ 1).batch_size =
      16 := by
  constructor
  · decide
  · rfl

/-- C7 (amended): with noise-floor parameter 0 (as produced by
`noise_floor_multiple = 0`), `min_batch_size = 1`, and a clock advancing at
least 1 ns per batch, `batch_size` stays 1 throughout the loop (invariant
`NoCoalesceInv`), so every terminating run returns `batch_size = 1` and the
reduced `Result` has `batch_size = 1 * calls_per_logical_unit`. -/
theorem C7_no_coalescing (fn : Nat → Bool) (clock : Nat → Int)
    (mx wu mec rm : Int) (hmx : 0 ≤ mx) (hmec : 1 ≤ mec)
    (hclock : ∀ i, clock i + 1 ≤ clock (i + 1)) :
    ∀ (fuel : Nat) (st : Bench_Stats) (nc : Nat),
      gather_bench_stats fn clock mx wu 0 1 mec fuel = some (st, nc) →
      st.batch_size = 1 ∧ (process_stats st rm).batch_size = 1 * rm := by
  intro fuel st nc h
  have h1 := gather_noCoalesce fn clock mx wu mec hmx hmec hclock fuel st nc h
  refine ⟨h1, ?_⟩
  rw [process_stats_batch_size_def, h1]

/-- C7 witness: the amended theorem applied to the identity clock (which
advances 1 ns per read) and a concrete four-iteration run. -/
theorem C7_witness :
    (⟨2, 1, 0, 0, 0, 0, 1⟩ : Bench_Stats).batch_size = 1 ∧
    (process_stats ⟨2, 1, 0, 0, 0, 0, 1⟩ 5).batch_size = 1 * 5 :=
  C7_no_coalescing (fun _ => true) (fun i => (i : Int)) 3 1 1 5 (by decide)
    (by decide) (by intro i; push_cast; omega) 4 ⟨2, 1, 0, 0, 0, 0, 1⟩ 4
    (by decide)

/-! ### Claim C8 -/

/-- C8: (i) under a clock whose reads are non-decreasing and advance by at
least 1 ns per batch, the sampling loop terminates within `max_time_ns + 1`
iterations (shown as fuel sufficiency), for any `max_time_ns ≥ 0` including 0
and including a single call outlasting the whole budget; (ii) every
terminating run makes at least `min_batch_size ≥ 1` calls of the measured
function — the first batch always completes before the first deadline check;
(iii) the loop only exits at a batch boundary: any exiting step has made
exactly the full batch of `batch_size` calls beyond the calls made before the
iteration. -/
theorem C8_batch_boundary_termination (fn : Nat → Bool) (clock : Nat → Int)
    (mx wu bt mbs mec : Int) (hmx : 0 ≤ mx) (hmbs : 1 ≤ mbs)
    (hclock : ∀ i, clock i + 1 ≤ clock (i + 1)) :
    (gather_bench_stats fn clock mx wu bt mbs mec (mx.toNat + 1)).isSome ∧
    (∀ (fuel : Nat) (st : Bench_Stats) (nc : Nat),
      gather_bench_stats fn clock mx wu bt mbs mec fuel = some (st, nc) →
      mbs.toNat ≤ nc ∧ 1 ≤ nc) ∧
    (∀ (bt' start : Int) (s : GatherState) (st : Bench_Stats) (nc : Nat),
      gatherStep fn clock mx bt' mbs mec start s = Sum.inl (st, nc) →
      nc = s.calls + s.stats.batch_size.toNat) := by
  refine ⟨gather_terminates fn clock mx wu bt mbs mec hmx hclock, ?_, ?_⟩
  · intro fuel st nc h
    have h1 := gather_calls fn clock mx wu bt mbs mec hmbs fuel st nc h
    exact ⟨h1, by omega⟩
  · intro bt' start s st nc h
    rw [gatherStep_eq] at h
    exact (deadline_phase_inl mx bt' mbs mec start _ s _ _ st nc h).2

/-- C8 witness: with `max_time_ns = 0` and a clock jumping 100 ns per read
(a "single call" far exceeding the whole budget), the loop still terminates
with fuel 1, i.e. after exactly one complete batch. -/
theorem C8_witness :
    (gather_bench_stats (fun _ => true) (fun i => 100 * (i : Int))
      0 0 1 1 1 1).isSome :=
  (C8_batch_boundary_termination (fun _ => true) (fun i => 100 * (i : Int))
    0 0 1 1 1 (by decide) (by decide) (by intro i; push_cast; omega)).1

/-! ### Claim C9 -/

/-- C9: for a positive sample count (and deltas within the sentinel bounds
`±2^62`, as any real clock delta is), `calculate_clock_stats` returns an
`average` equal to the truncating quotient of the summed back-to-back deltas
by the sample count, except that a quotient of exactly 0 is forced to 1; its
`min` is a lower bound of every observed delta and is attained by one of them,
and symmetrically its `max` is an attained upper bound. -/
theorem C9_clock_stats (diff : Nat → Int) (runs : Int) (h0 : 0 < runs)
    (hd : ∀ i < runs.toNat, -sentinel ≤ diff i ∧ diff i ≤ sentinel) :
    ((calculate_clock_stats diff runs).average =
      if Int.tdiv (((List.range runs.toNat).map diff).sum) runs = 0 then 1
      else Int.tdiv (((List.range runs.toNat).map diff).sum) runs) ∧
    (∀ i < runs.toNat, (calculate_clock_stats diff runs).min ≤ diff i) ∧
    (∃ i, i < runs.toNat ∧ (calculate_clock_stats diff runs).min = diff i) ∧
    (∀ i < runs.toNat, diff i ≤ (calculate_clock_stats diff runs).max) ∧
    (∃ i, i < runs.toNat ∧ (calculate_clock_stats diff runs).max = diff i) := by
  obtain ⟨s1, s2, s3, s4, s5, s6, s7⟩ :=
    clock_fold_spec diff runs.toNat 0 sentinel (-sentinel)
  have hn0 : 0 < runs.toNat := by omega
  unfold calculate_clock_stats
  dsimp only
  rw [s1, zero_add]
  refine ⟨?_, s3, ?_, s6, ?_⟩
  · split_ifs <;> omega
  · rcases s4 with h | h
    · refine ⟨0, hn0, ?_⟩
      have hle := s3 0 hn0
      have hb := (hd 0 hn0).2
      omega
    · exact h
  · rcases s7 with h | h
    · refine ⟨0, hn0, ?_⟩
      have hle := s6 0 hn0
      have hb := (hd 0 hn0).1
      omega
    · exact h

/-- C9 witness: calibration over three constant 50 ns deltas yields
`average = min = max = 50`. -/
theorem C9_witness :
    (calculate_clock_stats (fun _ => 50) 3).average = 50 ∧
    (calculate_clock_stats (fun _ => 50) 3).min = 50 ∧
    (calculate_clock_stats (fun _ => 50) 3).max = 50 := by
  obtain ⟨a1, a2, a3, a4, a5⟩ := C9_clock_stats (fun _ => 50) 3 (by decide)
    (by decide)
  refine ⟨?_, ?_, ?_⟩
  · rw [a1]; decide
  · obtain ⟨i, -, he⟩ := a3
    exact he
  · obtain ⟨i, -, he⟩ := a5
    exact he

/-! ### Claim C10 -/

/-- C10: the CLT batch-size correction leaves the mean untouched: whenever
`iters = batch_size * runs_mult * batch_count ≠ 0` the reported `mean_ms` is
exactly the uncorrected per-call mean
`(time_sum + mean_time_estimate * batch_count) / (iters * 10^6)` with no
`sqrt(batch_size)` factor, and it is exactly 0 when `iters = 0`. -/
theorem C10_mean_uncorrected (stats : Bench_Stats) (rm : Int) :
    (stats.batch_size * rm * stats.batch_count ≠ 0 →
      (process_stats stats rm).mean_ms =
        ((stats.time_sum + stats.mean_time_estimate * stats.batch_count :
            Int) : ℝ) /
          ((stats.batch_size * rm * stats.batch_count * 1000000 : Int) : ℝ)) ∧
    (stats.batch_size * rm * stats.batch_count = 0 →
      (process_stats stats rm).mean_ms = 0) := by
  unfold process_stats
  dsimp only
  rw [MILISECOND_NANOSECONDS_eq]
  constructor
  · intro hne
    rw [if_pos hne]
  · intro heq
    rw [if_neg (by simp [heq])]

/-- C10 witness: the uncorrected mean at a concrete record. -/
theorem C10_witness :
    (process_stats ⟨1, 2, 3, 4, 5, 6, 7⟩ 3).mean_ms =
      ((3 + 7 * 1 : Int) : ℝ) / ((2 * 3 * 1 * 1000000 : Int) : ℝ) :=
  (C10_mean_uncorrected ⟨1, 2, 3, 4, 5, 6, 7⟩ 3).1 (by decide)

end Microbench
